import Mathlib

/-!
Shallow embedding of the Cortex slab allocator
(`crates/cortex-core/src/slab.rs` and `handle.rs`).

Bytes are modelled as `Nat` (values below 256 in every reachable state),
the backing region as a `List Nat`, and the freelist as a `List Nat` kept
in the same order as the Rust `Vec` (push appends at the end, pop removes
the last element).  Fallible operations return `Option`; the panicking
`deallocate` returns `none` on its fatal assertion path.
-/

set_option maxRecDepth 16000
set_option maxHeartbeats 2000000

namespace Cortex

-- Layout constants -------------------------------------------------------

def TTL_OFFSET : Nat := 0

def TTL_SIZE : Nat := 8

def KEY_LEN_OFFSET : Nat := TTL_OFFSET + TTL_SIZE

def VAL_LEN_OFFSET : Nat := KEY_LEN_OFFSET + 2

def HEADER_SIZE : Nat := VAL_LEN_OFFSET + 2

def BLOCK_SIZE : Nat := 512

/-- Handle: opaque reference to a slab block (`Handle(pub usize)`). -/
structure Handle where
  index : Nat
deriving DecidableEq, Repr

/-- Slab state: backing region bytes, block count, freelist (Vec order). -/
structure Slab where
  region : List Nat
  total_blocks : Nat
  free_list : List Nat
deriving DecidableEq, Repr

/-- Little-endian encoding of `v` into `n` bytes (`to_le_bytes`). -/
def toLEBytes : Nat → Nat → List Nat
  | 0, _ => []
  | n + 1, v => v % 256 :: toLEBytes n (v / 256)

/-- Little-endian decoding of a byte list (`from_le_bytes`). -/
def fromLEBytes : List Nat → Nat
  | [] => 0
  | b :: bs => b + 256 * fromLEBytes bs

/-- Write the byte list `bs` into `r` starting at absolute offset `o`
(models `copy_from_slice` / `fill` on a subslice of the region). -/
def writeBytes : List Nat → Nat → List Nat → List Nat
  | r, _, [] => r
  | r, o, b :: bs => writeBytes (r.set o b) (o + 1) bs

/-- Read `n` bytes of `r` starting at offset `o` (a shared subslice). -/
def readBytes (r : List Nat) (o n : Nat) : List Nat :=
  (r.drop o).take n

/-- Initialise a freelist containing `n` block indices in LIFO order:
the Rust loop pushes `idx` for `idx in (0..n).rev()`. -/
def init_freelist (n : Nat) : List Nat :=
  ((List.range n).reverse).foldl (fun list idx => list ++ [idx]) []

namespace Slab

/-- Create a new slab: `total_blocks = capacity_bytes / BLOCK_SIZE`,
zero-filled region of `total_blocks * BLOCK_SIZE` bytes, full freelist. -/
def new (capacity_bytes : Nat) : Slab :=
  let total_blocks := capacity_bytes / BLOCK_SIZE
  { region := List.replicate (total_blocks * BLOCK_SIZE) 0
    total_blocks := total_blocks
    free_list := init_freelist total_blocks }

/-- Allocate a block for `key`/`value`/`ttl`.  Returns the optional handle
together with the post-call slab state (`&mut self` in Rust). -/
def allocate (s : Slab) (key value : List Nat) (ttl : Nat) :
    Option Handle × Slab :=
  if key.length > 65535 ∨ value.length > 65535 then (none, s)
  else if HEADER_SIZE + key.length + value.length > BLOCK_SIZE then (none, s)
  else
    match s.free_list.getLast? with
    | none => (none, s)
    | some index =>
      let offset := index * BLOCK_SIZE
      let r1 := writeBytes s.region (offset + TTL_OFFSET) (toLEBytes TTL_SIZE ttl)
      let r2 := writeBytes r1 (offset + KEY_LEN_OFFSET) (toLEBytes 2 key.length)
      let r3 := writeBytes r2 (offset + VAL_LEN_OFFSET) (toLEBytes 2 value.length)
      let r4 := writeBytes r3 (offset + HEADER_SIZE) key
      let r5 := writeBytes r4 (offset + HEADER_SIZE + key.length) value
      (some ⟨index⟩,
        { region := r5
          total_blocks := s.total_blocks
          free_list := s.free_list.dropLast })

/-- Retrieve the value slice stored for `handle`. -/
def get_value (s : Slab) (handle : Handle) : Option (List Nat) :=
  let index := handle.index
  if index ≥ s.total_blocks then none
  else
    let offset := index * BLOCK_SIZE
    let block := readBytes s.region offset BLOCK_SIZE
    let key_len := fromLEBytes (readBytes block KEY_LEN_OFFSET 2)
    let val_len := fromLEBytes (readBytes block VAL_LEN_OFFSET 2)
    let val_start := HEADER_SIZE + key_len
    let val_end := val_start + val_len
    if val_end > BLOCK_SIZE then none
    else some (readBytes block val_start val_len)

/-- Retrieve all metadata and payload for `handle`. -/
def get_meta (s : Slab) (handle : Handle) : Option (Nat × List Nat × List Nat) :=
  let index := handle.index
  if index ≥ s.total_blocks then none
  else
    let offset := index * BLOCK_SIZE
    let block := readBytes s.region offset BLOCK_SIZE
    let ttl := fromLEBytes (readBytes block TTL_OFFSET TTL_SIZE)
    let key_len := fromLEBytes (readBytes block KEY_LEN_OFFSET 2)
    let val_len := fromLEBytes (readBytes block VAL_LEN_OFFSET 2)
    let key_start := HEADER_SIZE
    let key_end := key_start + key_len
    let val_start := key_end
    let val_end := val_start + val_len
    if val_end > BLOCK_SIZE then none
    else some (ttl, readBytes block key_start key_len, readBytes block val_start val_len)

/-- Deallocate the block referenced by `handle`.  Out-of-range indices are a
silent no-op; a double free hits the fatal `assert!` (modelled as `none`);
otherwise the block is zeroed and the index pushed on the freelist. -/
def deallocate (s : Slab) (handle : Handle) : Option Slab :=
  let index := handle.index
  if index ≥ s.total_blocks then some s
  else if index ∈ s.free_list then none
  else
    let offset := index * BLOCK_SIZE
    some { region := writeBytes s.region offset (List.replicate BLOCK_SIZE 0)
           total_blocks := s.total_blocks
           free_list := s.free_list ++ [index] }

/-- Occupied block indices: in-range indices not on the freelist. -/
def occupied (s : Slab) : List Nat :=
  (List.range s.total_blocks).filter (fun i => decide (i ∉ s.free_list))

/-- Well-formedness of a slab state: the region has exactly
`total_blocks * BLOCK_SIZE` bytes, the freelist has no duplicates, and
every freelist index is in range. -/
def WF (s : Slab) : Prop :=
  s.region.length = s.total_blocks * BLOCK_SIZE ∧
  s.free_list.Nodup ∧
  ∀ i ∈ s.free_list, i < s.total_blocks

instance (s : Slab) : Decidable s.WF := by
  unfold WF; infer_instance

end Slab

/-- States reachable from a fresh slab by successful `allocate` and
non-panicking `deallocate` calls. -/
inductive Reachable : Slab → Prop
  | new (capacity_bytes : Nat) : Reachable (Slab.new capacity_bytes)
  | alloc {s : Slab} {key value : List Nat} {ttl : Nat} {h : Handle} {s' : Slab} :
      Reachable s → s.allocate key value ttl = (some h, s') → Reachable s'
  | dealloc {s : Slab} {h : Handle} {s' : Slab} :
      Reachable s → s.deallocate h = some s' → Reachable s'

/-- Run a sequence of allocations; `none` if any of them fails. -/
def runAllocs : Slab → List (List Nat × List Nat × Nat) → Option Slab
  | s, [] => some s
  | s, (key, value, ttl) :: ops =>
    match s.allocate key value ttl with
    | (some _, s') => runAllocs s' ops
    | (none, _) => none

-- Helper lemmas on the byte-level primitives --------------------------------

theorem writeBytes_length (bs : List Nat) : ∀ (r : List Nat) (o : Nat),
    (writeBytes r o bs).length = r.length := by
  induction bs with
  | nil => intro r o; rfl
  | cons b bs ih => intro r o; rw [writeBytes, ih, List.length_set]

theorem writeBytes_getElem?_lt (bs : List Nat) : ∀ (r : List Nat) (o i : Nat),
    i < o → (writeBytes r o bs)[i]? = r[i]? := by
  induction bs with
  | nil => intro r o i _; rfl
  | cons b bs ih =>
    intro r o i hio
    rw [writeBytes, ih _ _ _ (Nat.lt_succ_of_lt hio)]
    exact List.getElem?_set_ne (by omega)

theorem writeBytes_getElem?_ge (bs : List Nat) : ∀ (r : List Nat) (o i : Nat),
    o + bs.length ≤ i → (writeBytes r o bs)[i]? = r[i]? := by
  induction bs with
  | nil => intro r o i _; rfl
  | cons b bs ih =>
    intro r o i hio
    rw [List.length_cons] at hio
    rw [writeBytes, ih _ _ _ (by omega)]
    exact List.getElem?_set_ne (by omega)

theorem writeBytes_getElem?_mem (bs : List Nat) : ∀ (r : List Nat) (o i : Nat),
    o ≤ i → i < o + bs.length → i < r.length →
    (writeBytes r o bs)[i]? = bs[i - o]? := by
  induction bs with
  | nil => intro r o i h1 h2 _; rw [List.length_nil] at h2; omega
  | cons b bs ih =>
    intro r o i h1 h2 h3
    rw [writeBytes]
    by_cases hio : i = o
    · rw [writeBytes_getElem?_lt bs _ _ _ (by omega)]
      subst hio
      rw [List.getElem?_set_self h3]
      simp
    · rw [List.length_cons] at h2
      rw [ih _ _ _ (by omega) (by omega) (by rw [List.length_set]; exact h3)]
      have hi : i - o = (i - (o + 1)) + 1 := by omega
      rw [hi, List.getElem?_cons_succ]

theorem length_readBytes (r : List Nat) (o n : Nat) :
    (readBytes r o n).length = min n (r.length - o) := by
  simp [readBytes]

theorem readBytes_getElem?_lt (r : List Nat) (o n i : Nat) (h : i < n) :
    (readBytes r o n)[i]? = r[o + i]? := by
  rw [readBytes, List.getElem?_take_of_lt h, List.getElem?_drop]

theorem readBytes_getElem?_ge (r : List Nat) (o n i : Nat) (h : n ≤ i) :
    (readBytes r o n)[i]? = none := by
  apply List.getElem?_eq_none
  calc (readBytes r o n).length ≤ n := by rw [length_readBytes]; omega
    _ ≤ i := h

theorem readBytes_writeBytes_self (bs r : List Nat) (o : Nat)
    (h : o + bs.length ≤ r.length) :
    readBytes (writeBytes r o bs) o bs.length = bs := by
  apply List.ext_getElem?
  intro i
  by_cases hi : i < bs.length
  · rw [readBytes_getElem?_lt _ _ _ _ hi,
      writeBytes_getElem?_mem bs _ _ _ (Nat.le_add_right o i) (by omega)
        (by omega)]
    congr 1
    omega
  · rw [readBytes_getElem?_ge _ _ _ _ (by omega)]
    exact (List.getElem?_eq_none (by omega)).symm

theorem readBytes_writeBytes_left (bs r : List Nat) (o o2 n : Nat)
    (h : o2 + n ≤ o) :
    readBytes (writeBytes r o bs) o2 n = readBytes r o2 n := by
  apply List.ext_getElem?
  intro i
  by_cases hi : i < n
  · rw [readBytes_getElem?_lt _ _ _ _ hi, readBytes_getElem?_lt _ _ _ _ hi,
      writeBytes_getElem?_lt _ _ _ _ (by omega)]
  · rw [readBytes_getElem?_ge _ _ _ _ (by omega),
      readBytes_getElem?_ge _ _ _ _ (by omega)]

theorem readBytes_writeBytes_right (bs r : List Nat) (o o2 n : Nat)
    (h : o + bs.length ≤ o2) :
    readBytes (writeBytes r o bs) o2 n = readBytes r o2 n := by
  apply List.ext_getElem?
  intro i
  by_cases hi : i < n
  · rw [readBytes_getElem?_lt _ _ _ _ hi, readBytes_getElem?_lt _ _ _ _ hi,
      writeBytes_getElem?_ge _ _ _ _ (by omega)]
  · rw [readBytes_getElem?_ge _ _ _ _ (by omega),
      readBytes_getElem?_ge _ _ _ _ (by omega)]

theorem readBytes_readBytes (r : List Nat) (o n o2 n2 : Nat)
    (h : o2 + n2 ≤ n) :
    readBytes (readBytes r o n) o2 n2 = readBytes r (o + o2) n2 := by
  apply List.ext_getElem?
  intro i
  by_cases hi : i < n2
  · rw [readBytes_getElem?_lt _ _ _ _ hi, readBytes_getElem?_lt _ _ _ _ (by omega),
      readBytes_getElem?_lt _ _ _ _ hi]
    congr 1
    omega
  · rw [readBytes_getElem?_ge _ _ _ _ (by omega),
      readBytes_getElem?_ge _ _ _ _ (by omega)]

theorem length_toLEBytes (n : Nat) : ∀ v : Nat, (toLEBytes n v).length = n := by
  induction n with
  | zero => intro v; rfl
  | succ n ih => intro v; rw [toLEBytes, List.length_cons, ih]

theorem fromLEBytes_toLEBytes (n : Nat) : ∀ v : Nat, v < 2 ^ (8 * n) →
    fromLEBytes (toLEBytes n v) = v := by
  induction n with
  | zero =>
    intro v h
    simp only [Nat.mul_zero, pow_zero, Nat.lt_one_iff] at h
    simp [toLEBytes, fromLEBytes, h]
  | succ n ih =>
    intro v h
    have hpow : 2 ^ (8 * (n + 1)) = 256 * 2 ^ (8 * n) := by
      rw [Nat.mul_succ, pow_add, Nat.mul_comm]
      norm_num
    rw [toLEBytes, fromLEBytes, ih (v / 256)
      (Nat.div_lt_of_lt_mul (by rw [← hpow]; exact h))]
    exact Nat.mod_add_div v 256

theorem foldl_push_eq_append (xs : List Nat) : ∀ acc : List Nat,
    xs.foldl (fun list idx => list ++ [idx]) acc = acc ++ xs := by
  induction xs with
  | nil => intro acc; simp
  | cons x xs ih => intro acc; simp [List.foldl_cons, ih]

theorem init_freelist_eq (n : Nat) :
    init_freelist n = (List.range n).reverse := by
  rw [init_freelist, foldl_push_eq_append, List.nil_append]

theorem getLast?_init_freelist (n : Nat) :
    (init_freelist n).getLast? = if n = 0 then none else some 0 := by
  rw [init_freelist_eq, List.getLast?_reverse, List.head?_range]

theorem readBytes_two_zero (r : List Nat) (o : Nat)
    (h0 : r[o]? = some 0) (h1 : r[o + 1]? = some 0) :
    readBytes r o 2 = [0, 0] := by
  apply List.ext_getElem?
  intro i
  match i with
  | 0 =>
    rw [readBytes_getElem?_lt _ _ _ _ (by omega)]
    simpa using h0
  | 1 =>
    rw [readBytes_getElem?_lt _ _ _ _ (by omega)]
    simpa using h1
  | n + 2 =>
    rw [readBytes_getElem?_ge _ _ _ _ (by omega)]
    simp

theorem readBytes_writeBytes_self' (bs r : List Nat) (o n : Nat)
    (hn : bs.length = n) (h : o + n ≤ r.length) :
    readBytes (writeBytes r o bs) o n = bs := by
  subst hn
  exact readBytes_writeBytes_self bs r o h

-- Characterisation of a successful allocation ------------------------------

theorem allocate_success (s : Slab) (key value : List Nat) (ttl : Nat) (index : Nat)
    (hk : key.length ≤ 65535) (hv : value.length ≤ 65535)
    (hfit : 12 + key.length + value.length ≤ 512)
    (hlast : s.free_list.getLast? = some index) :
    s.allocate key value ttl =
      (some ⟨index⟩,
        { region := writeBytes (writeBytes (writeBytes (writeBytes (writeBytes
            s.region (index * 512) (toLEBytes 8 ttl))
            (index * 512 + 8) (toLEBytes 2 key.length))
            (index * 512 + 10) (toLEBytes 2 value.length))
            (index * 512 + 12) key)
            (index * 512 + 12 + key.length) value
          total_blocks := s.total_blocks
          free_list := s.free_list.dropLast }) := by
  unfold Slab.allocate
  rw [if_neg (by omega),
    if_neg (by simp only [HEADER_SIZE, VAL_LEN_OFFSET, KEY_LEN_OFFSET,
      TTL_OFFSET, TTL_SIZE, BLOCK_SIZE]; omega),
    hlast]
  simp only [TTL_OFFSET, TTL_SIZE, KEY_LEN_OFFSET, VAL_LEN_OFFSET,
    HEADER_SIZE, BLOCK_SIZE, Nat.add_zero]

-- Reads from a freshly encoded block ---------------------------------------

theorem encode_read_ttl (r key value : List Nat) (ttl offset : Nat)
    (hlen : offset + 512 ≤ r.length) :
    readBytes (writeBytes (writeBytes (writeBytes (writeBytes (writeBytes
        r (offset) (toLEBytes 8 ttl))
        (offset + 8) (toLEBytes 2 key.length))
        (offset + 10) (toLEBytes 2 value.length))
        (offset + 12) key)
        (offset + 12 + key.length) value)
      offset 8 = toLEBytes 8 ttl := by
  rw [readBytes_writeBytes_left _ _ _ _ _ (by omega),
    readBytes_writeBytes_left _ _ _ _ _ (by omega),
    readBytes_writeBytes_left _ _ _ _ _ (by omega),
    readBytes_writeBytes_left _ _ _ _ _ (by omega),
    readBytes_writeBytes_self' _ _ _ _ (length_toLEBytes 8 ttl) (by omega)]

theorem encode_read_key_len (r key value : List Nat) (ttl offset : Nat)
    (hlen : offset + 512 ≤ r.length) :
    readBytes (writeBytes (writeBytes (writeBytes (writeBytes (writeBytes
        r (offset) (toLEBytes 8 ttl))
        (offset + 8) (toLEBytes 2 key.length))
        (offset + 10) (toLEBytes 2 value.length))
        (offset + 12) key)
        (offset + 12 + key.length) value)
      (offset + 8) 2 = toLEBytes 2 key.length := by
  rw [readBytes_writeBytes_left _ _ _ _ _ (by omega),
    readBytes_writeBytes_left _ _ _ _ _ (by omega),
    readBytes_writeBytes_left _ _ _ _ _ (by omega),
    readBytes_writeBytes_self' _ _ _ _ (length_toLEBytes 2 key.length)
      (by rw [writeBytes_length]; omega)]

theorem encode_read_val_len (r key value : List Nat) (ttl offset : Nat)
    (hlen : offset + 512 ≤ r.length) :
    readBytes (writeBytes (writeBytes (writeBytes (writeBytes (writeBytes
        r (offset) (toLEBytes 8 ttl))
        (offset + 8) (toLEBytes 2 key.length))
        (offset + 10) (toLEBytes 2 value.length))
        (offset + 12) key)
        (offset + 12 + key.length) value)
      (offset + 10) 2 = toLEBytes 2 value.length := by
  rw [readBytes_writeBytes_left _ _ _ _ _ (by omega),
    readBytes_writeBytes_left _ _ _ _ _ (by omega),
    readBytes_writeBytes_self' _ _ _ _ (length_toLEBytes 2 value.length)
      (by rw [writeBytes_length, writeBytes_length]; omega)]

theorem encode_read_key (r key value : List Nat) (ttl offset : Nat)
    (hfit : 12 + key.length + value.length ≤ 512)
    (hlen : offset + 512 ≤ r.length) :
    readBytes (writeBytes (writeBytes (writeBytes (writeBytes (writeBytes
        r (offset) (toLEBytes 8 ttl))
        (offset + 8) (toLEBytes 2 key.length))
        (offset + 10) (toLEBytes 2 value.length))
        (offset + 12) key)
        (offset + 12 + key.length) value)
      (offset + 12) key.length = key := by
  rw [readBytes_writeBytes_left _ _ _ _ _ (by omega),
    readBytes_writeBytes_self' _ _ _ _ rfl
      (by rw [writeBytes_length, writeBytes_length, writeBytes_length]; omega)]

theorem encode_read_value (r key value : List Nat) (ttl offset : Nat)
    (hfit : 12 + key.length + value.length ≤ 512)
    (hlen : offset + 512 ≤ r.length) :
    readBytes (writeBytes (writeBytes (writeBytes (writeBytes (writeBytes
        r (offset) (toLEBytes 8 ttl))
        (offset + 8) (toLEBytes 2 key.length))
        (offset + 10) (toLEBytes 2 value.length))
        (offset + 12) key)
        (offset + 12 + key.length) value)
      (offset + 12 + key.length) value.length = value := by
  rw [readBytes_writeBytes_self' _ _ _ _ rfl
    (by rw [writeBytes_length, writeBytes_length, writeBytes_length,
      writeBytes_length]; omega)]

-- Inversion lemmas for successful operations -------------------------------

theorem allocate_some_inv {s : Slab} {key value : List Nat} {ttl : Nat}
    {h : Handle} {s' : Slab}
    (ha : s.allocate key value ttl = (some h, s')) :
    key.length ≤ 65535 ∧ value.length ≤ 65535 ∧
    12 + key.length + value.length ≤ 512 ∧
    s.free_list.getLast? = some h.index ∧
    s'.total_blocks = s.total_blocks ∧
    s'.free_list = s.free_list.dropLast ∧
    s'.region.length = s.region.length := by
  simp only [Slab.allocate, HEADER_SIZE, VAL_LEN_OFFSET, KEY_LEN_OFFSET,
    TTL_OFFSET, TTL_SIZE, BLOCK_SIZE, Nat.reduceAdd] at ha
  by_cases h1 : key.length > 65535 ∨ value.length > 65535
  · rw [if_pos h1] at ha
    exact absurd (congrArg Prod.fst ha) (by simp)
  · rw [if_neg h1] at ha
    by_cases h2 : 12 + key.length + value.length > 512
    · rw [if_pos h2] at ha
      exact absurd (congrArg Prod.fst ha) (by simp)
    · rw [if_neg h2] at ha
      cases hfl : s.free_list.getLast? with
      | none =>
        rw [hfl] at ha
        exact absurd (congrArg Prod.fst ha) (by simp)
      | some index =>
        rw [hfl] at ha
        rw [Prod.mk.injEq] at ha
        obtain ⟨hh, hs⟩ := ha
        have hh' : h.index = index := by rw [← Option.some.inj hh]
        refine ⟨by omega, by omega, by omega, by rw [hh'], ?_, ?_, ?_⟩
        · rw [← hs]
        · rw [← hs]
        · rw [← hs]
          simp only [writeBytes_length]

theorem deallocate_some_inv {s : Slab} {h : Handle} {s' : Slab}
    (hd : s.deallocate h = some s') :
    (h.index ≥ s.total_blocks ∧ s' = s) ∨
    (h.index < s.total_blocks ∧ h.index ∉ s.free_list ∧
      s'.total_blocks = s.total_blocks ∧
      s'.free_list = s.free_list ++ [h.index] ∧
      s'.region.length = s.region.length) := by
  by_cases hge : h.index ≥ s.total_blocks
  · left
    refine ⟨hge, ?_⟩
    simp only [Slab.deallocate] at hd
    rw [if_pos hge] at hd
    exact (Option.some.inj hd).symm
  · right
    simp only [Slab.deallocate] at hd
    rw [if_neg hge] at hd
    by_cases hmem : h.index ∈ s.free_list
    · rw [if_pos hmem] at hd
      exact absurd hd (by simp)
    · rw [if_neg hmem] at hd
      refine ⟨by omega, hmem, ?_, ?_, ?_⟩
      · rw [← Option.some.inj hd]
      · rw [← Option.some.inj hd]
      · have hreg' : s'.region =
            writeBytes s.region (h.index * BLOCK_SIZE) (List.replicate BLOCK_SIZE 0) := by
          rw [← Option.some.inj hd]
        rw [hreg', writeBytes_length]

theorem Reachable.wf {s : Slab} (hs : Reachable s) : s.WF := by
  induction hs with
  | new c =>
    refine ⟨by simp [Slab.new], ?_, ?_⟩
    · show (init_freelist (c / BLOCK_SIZE)).Nodup
      rw [init_freelist_eq]
      exact List.nodup_reverse.mpr (List.nodup_range _)
    · intro i hi
      have hi' : i ∈ init_freelist (c / BLOCK_SIZE) := hi
      rw [init_freelist_eq, List.mem_reverse, List.mem_range] at hi'
      exact hi'
  | alloc hs ha ih =>
    obtain ⟨-, -, -, -, htb, hfl, hlen⟩ := allocate_some_inv ha
    obtain ⟨ihreg, ihnodup, ihbound⟩ := ih
    refine ⟨by rw [hlen, htb, ihreg], ?_, ?_⟩
    · rw [hfl]
      exact (List.dropLast_sublist _).nodup ihnodup
    · intro i hi
      rw [htb]
      rw [hfl] at hi
      exact ihbound i ((List.dropLast_sublist _).subset hi)
  | dealloc hs hd ih =>
    obtain ⟨ihreg, ihnodup, ihbound⟩ := ih
    rcases deallocate_some_inv hd with ⟨hge, rfl⟩ | ⟨hlt, hmem, htb, hfl, hlen⟩
    · exact ⟨ihreg, ihnodup, ihbound⟩
    · refine ⟨by rw [hlen, htb, ihreg], ?_, ?_⟩
      · rw [hfl, List.nodup_append]
        refine ⟨ihnodup, List.nodup_singleton _, ?_⟩
        intro x hx hx'
        rw [List.mem_singleton] at hx'
        subst hx'
        exact hmem hx
      · intro i hi
        rw [htb]
        rw [hfl, List.mem_append] at hi
        rcases hi with hi | hi
        · exact ihbound i hi
        · rw [List.mem_singleton] at hi
          subst hi
          omega

theorem runAllocs_length (ops : List (List Nat × List Nat × Nat)) :
    ∀ s s' : Slab, runAllocs s ops = some s' →
      s'.free_list.length + ops.length = s.free_list.length ∧
      s'.total_blocks = s.total_blocks := by
  induction ops with
  | nil =>
    intro s s' h
    obtain rfl := Option.some.inj h
    simp
  | cons op ops ih =>
    intro s s' h
    obtain ⟨key, value, ttl⟩ := op
    simp only [runAllocs] at h
    cases ha : s.allocate key value ttl with
    | mk o s1 =>
      rw [ha] at h
      cases o with
      | none => simp at h
      | some hdl =>
        obtain ⟨hlen, htb⟩ := ih s1 s' h
        obtain ⟨-, -, -, hlast, htb1, hfl1, -⟩ := allocate_some_inv ha
        have hne : s.free_list ≠ [] := by
          intro hc
          rw [hc] at hlast
          simp at hlast
        have hlen1 : s1.free_list.length = s.free_list.length - 1 := by
          rw [hfl1, List.length_dropLast]
        have hpos : 0 < s.free_list.length := List.length_pos.mpr hne
        constructor
        · rw [List.length_cons]
          omega
        · rw [htb, htb1]

theorem length_free_list_new (capacity_bytes : Nat) :
    (Slab.new capacity_bytes).free_list.length = (Slab.new capacity_bytes).total_blocks := by
  show (init_freelist (capacity_bytes / BLOCK_SIZE)).length = capacity_bytes / BLOCK_SIZE
  rw [init_freelist_eq, List.length_reverse, List.length_range]

-- Claim theorems -----------------------------------------------------------

/-- C1: for every key K and value V with `12 + |K| + |V| ≤ 512` and
`|K|, |V| ≤ 65535`, and every TTL T (a u64), `allocate(K, V, T)` on a
well-formed slab with a non-empty freelist returns some handle H such that
`get_value(H)` returns V and `get_meta(H)` returns `(T, K, V)`. -/
theorem C1_round_trip (s : Slab) (key value : List Nat) (ttl : Nat)
    (hwf : s.WF) (hne : s.free_list ≠ [])
    (hk : key.length ≤ 65535) (hv : value.length ≤ 65535)
    (hfit : 12 + key.length + value.length ≤ 512) (httl : ttl < 2 ^ 64) :
    ∃ (h : Handle) (s' : Slab),
      s.allocate key value ttl = (some h, s') ∧
      s'.get_value h = some value ∧
      s'.get_meta h = some (ttl, key, value) := by
  obtain ⟨hreg, hnodup, hbound⟩ := hwf
  obtain ⟨index, hlast⟩ : ∃ i, s.free_list.getLast? = some i := by
    cases hfl : s.free_list.getLast? with
    | none => exact absurd (List.getLast?_eq_none_iff.mp hfl) hne
    | some i => exact ⟨i, rfl⟩
  have hidx : index < s.total_blocks :=
    hbound index (List.mem_of_getLast?_eq_some hlast)
  have hoff : index * 512 + 512 ≤ s.region.length := by
    rw [hreg]
    simp only [BLOCK_SIZE]
    omega
  refine ⟨⟨index⟩, _, allocate_success s key value ttl index hk hv hfit hlast, ?_, ?_⟩
  · simp only [Slab.get_value, KEY_LEN_OFFSET, VAL_LEN_OFFSET, HEADER_SIZE,
      BLOCK_SIZE, TTL_OFFSET, TTL_SIZE]
    rw [if_neg (by omega)]
    rw [readBytes_readBytes _ _ _ _ _ (by omega),
      readBytes_readBytes _ _ _ _ _ (by omega)]
    rw [encode_read_key_len s.region key value ttl (index * 512) hoff,
      encode_read_val_len s.region key value ttl (index * 512) hoff]
    rw [fromLEBytes_toLEBytes 2 key.length (by norm_num; omega),
      fromLEBytes_toLEBytes 2 value.length (by norm_num; omega)]
    rw [if_neg (by omega)]
    rw [readBytes_readBytes _ _ _ _ _ (by omega), ← Nat.add_assoc]
    rw [encode_read_value s.region key value ttl (index * 512) hfit hoff]
  · simp only [Slab.get_meta, KEY_LEN_OFFSET, VAL_LEN_OFFSET, HEADER_SIZE,
      BLOCK_SIZE, TTL_OFFSET, TTL_SIZE, Nat.reduceAdd]
    rw [if_neg (by omega)]
    rw [readBytes_readBytes _ _ _ _ _ (by omega),
      readBytes_readBytes _ _ _ _ _ (by omega),
      readBytes_readBytes _ _ _ _ _ (by omega)]
    simp only [Nat.zero_add, Nat.add_zero]
    rw [encode_read_ttl s.region key value ttl (index * 512) hoff,
      encode_read_key_len s.region key value ttl (index * 512) hoff,
      encode_read_val_len s.region key value ttl (index * 512) hoff]
    rw [fromLEBytes_toLEBytes 8 ttl (by norm_num at httl ⊢; omega),
      fromLEBytes_toLEBytes 2 key.length (by norm_num; omega),
      fromLEBytes_toLEBytes 2 value.length (by norm_num; omega)]
    rw [if_neg (by omega)]
    rw [readBytes_readBytes _ _ _ _ _ (by omega),
      readBytes_readBytes _ _ _ _ _ (by omega),
      ← Nat.add_assoc (index * 512) 12 key.length]
    rw [encode_read_key s.region key value ttl (index * 512) hfit hoff,
      encode_read_value s.region key value ttl (index * 512) hfit hoff]

/-- Witness for C1: concrete round trip on a fresh one-block slab. -/
theorem C1_round_trip_witness :
    (Slab.new 512).WF ∧ (Slab.new 512).free_list ≠ [] ∧
    ([1, 2, 3] : List Nat).length ≤ 65535 ∧
    ([4, 5, 6, 7, 8] : List Nat).length ≤ 65535 ∧
    12 + ([1, 2, 3] : List Nat).length + ([4, 5, 6, 7, 8] : List Nat).length ≤ 512 ∧
    (7 : Nat) < 2 ^ 64 ∧
    ∃ (h : Handle) (s' : Slab),
      (Slab.new 512).allocate [1, 2, 3] [4, 5, 6, 7, 8] 7 = (some h, s') ∧
      s'.get_value h = some [4, 5, 6, 7, 8] ∧
      s'.get_meta h = some (7, [1, 2, 3], [4, 5, 6, 7, 8]) :=
  ⟨by decide, by decide, by decide, by decide, by decide, by decide,
    C1_round_trip (Slab.new 512) [1, 2, 3] [4, 5, 6, 7, 8] 7
      (by decide) (by decide) (by decide) (by decide) (by decide) (by decide)⟩

/-- C2: allocate returns no handle exactly when the key or value exceeds
65535 bytes, the record does not fit a 512-byte block, or the freelist is
empty; otherwise it returns a handle. -/
theorem C2_allocate_failure_policy (s : Slab) (key value : List Nat) (ttl : Nat) :
    (s.allocate key value ttl).1 = none ↔
      key.length > 65535 ∨ value.length > 65535 ∨
      12 + key.length + value.length > 512 ∨ s.free_list = [] := by
  simp only [Slab.allocate, HEADER_SIZE, VAL_LEN_OFFSET, KEY_LEN_OFFSET,
    TTL_OFFSET, TTL_SIZE, BLOCK_SIZE, Nat.reduceAdd]
  by_cases h1 : key.length > 65535 ∨ value.length > 65535
  · rw [if_pos h1]
    simp only [true_iff]
    tauto
  · rw [if_neg h1]
    by_cases h2 : 12 + key.length + value.length > 512
    · rw [if_pos h2]
      simp only [true_iff]
      tauto
    · rw [if_neg h2]
      cases hfl : s.free_list.getLast? with
      | none =>
        have hfl' : s.free_list = [] := List.getLast?_eq_none_iff.mp hfl
        simp only [true_iff]
        tauto
      | some i =>
        have hne : s.free_list ≠ [] := by
          intro hcontra
          rw [hcontra] at hfl
          simp at hfl
        constructor
        · intro hcontra
          simp at hcontra
        · intro hor
          rcases hor with h | h | h | h
          · exact absurd (Or.inl h) h1
          · exact absurd (Or.inr h) h1
          · exact absurd h h2
          · exact absurd h hne

/-- C4: when allocate returns no handle, the freelist and the byte region
are unchanged. -/
theorem C4_allocate_atomic (s : Slab) (key value : List Nat) (ttl : Nat)
    (hnone : (s.allocate key value ttl).1 = none) :
    (s.allocate key value ttl).2.free_list = s.free_list ∧
    (s.allocate key value ttl).2.region = s.region := by
  simp only [Slab.allocate] at hnone ⊢
  by_cases h1 : key.length > 65535 ∨ value.length > 65535
  · rw [if_pos h1]
    exact ⟨rfl, rfl⟩
  · rw [if_neg h1] at hnone ⊢
    by_cases h2 : HEADER_SIZE + key.length + value.length > BLOCK_SIZE
    · rw [if_pos h2]
      exact ⟨rfl, rfl⟩
    · rw [if_neg h2] at hnone ⊢
      cases hfl : s.free_list.getLast? with
      | none => exact ⟨rfl, rfl⟩
      | some i =>
        rw [hfl] at hnone
        simp at hnone

/-- Witness for C4: allocation on a zero-capacity slab fails and leaves
state untouched. -/
theorem C4_allocate_atomic_witness :
    ((Slab.new 0).allocate [1] [2] 3).1 = none ∧
    ((Slab.new 0).allocate [1] [2] 3).2.free_list = (Slab.new 0).free_list ∧
    ((Slab.new 0).allocate [1] [2] 3).2.region = (Slab.new 0).region :=
  ⟨by decide, (C4_allocate_atomic (Slab.new 0) [1] [2] 3 (by decide)).1,
    (C4_allocate_atomic (Slab.new 0) [1] [2] 3 (by decide)).2⟩

/-- C5: deallocating an in-range handle already on the freelist hits the
fatal assertion; in particular a second deallocate of the same handle with
no intervening allocation of that index is fatal. -/
theorem C5_double_free_fatal (s : Slab) (h : Handle)
    (hlt : h.index < s.total_blocks) :
    (h.index ∈ s.free_list → s.deallocate h = none) ∧
    (∀ s', h.index ∉ s.free_list → s.deallocate h = some s' →
      s'.deallocate h = none) := by
  constructor
  · intro hmem
    simp only [Slab.deallocate]
    rw [if_neg (by omega), if_pos hmem]
  · intro s' hnot hd
    simp only [Slab.deallocate] at hd
    rw [if_neg (by omega), if_neg hnot] at hd
    have htb : s'.total_blocks = s.total_blocks := by
      rw [← Option.some.inj hd]
    have hfl : s'.free_list = s.free_list ++ [h.index] := by
      rw [← Option.some.inj hd]
    simp only [Slab.deallocate]
    rw [if_neg (by rw [ge_iff_le, htb]; omega), if_pos (by rw [hfl]; simp)]

/-- Witness for C5: the second deallocate of block 0 on a one-block slab is
fatal. -/
theorem C5_double_free_fatal_witness :
    (0 : Nat) < (Slab.new 512).total_blocks ∧
    (0 : Nat) ∈ (Slab.new 512).free_list ∧
    (Slab.new 512).deallocate ⟨0⟩ = none :=
  ⟨by decide, by decide,
    (C5_double_free_fatal (Slab.new 512) ⟨0⟩ (by decide)).1 (by decide)⟩

/-- C6: after a successful deallocate, all 512 bytes of the handle's block
are zero and the index has been pushed onto the freelist. -/
theorem C6_deallocate_zeroing (s : Slab) (h : Handle) (s' : Slab)
    (hreg : s.region.length = s.total_blocks * 512)
    (hlt : h.index < s.total_blocks) (hnot : h.index ∉ s.free_list)
    (hd : s.deallocate h = some s') :
    (∀ j, h.index * 512 ≤ j → j < (h.index + 1) * 512 → s'.region[j]? = some 0) ∧
    s'.free_list = s.free_list ++ [h.index] := by
  simp only [Slab.deallocate] at hd
  rw [if_neg (by omega), if_neg hnot] at hd
  have hreg' : s'.region =
      writeBytes s.region (h.index * BLOCK_SIZE) (List.replicate BLOCK_SIZE 0) := by
    rw [← Option.some.inj hd]
  have hfl' : s'.free_list = s.free_list ++ [h.index] := by
    rw [← Option.some.inj hd]
  refine ⟨?_, hfl'⟩
  intro j hj1 hj2
  rw [hreg']
  simp only [BLOCK_SIZE]
  rw [writeBytes_getElem?_mem _ _ _ _ (by omega)
    (by rw [List.length_replicate]; omega) (by omega)]
  exact List.getElem?_replicate_of_lt (by omega)

/-- Witness for C6: deallocating the single occupied block of a handcrafted
slab zeroes it and pushes index 0. -/
theorem C6_deallocate_zeroing_witness :
    (⟨List.replicate 512 1, 1, []⟩ : Slab).deallocate ⟨0⟩ =
      some ⟨writeBytes (List.replicate 512 1) (0 * BLOCK_SIZE) (List.replicate BLOCK_SIZE 0), 1, [] ++ [0]⟩ ∧
    (⟨writeBytes (List.replicate 512 1) (0 * BLOCK_SIZE) (List.replicate BLOCK_SIZE 0), 1, [] ++ [0]⟩ : Slab).region[5]? = some 0 ∧
    (⟨writeBytes (List.replicate 512 1) (0 * BLOCK_SIZE) (List.replicate BLOCK_SIZE 0), 1, [] ++ [0]⟩ : Slab).free_list = [] ++ [0] := by
  have hd : (⟨List.replicate 512 1, 1, []⟩ : Slab).deallocate ⟨0⟩ =
      some ⟨writeBytes (List.replicate 512 1) (0 * BLOCK_SIZE) (List.replicate BLOCK_SIZE 0), 1, [] ++ [0]⟩ := rfl
  refine ⟨hd, ?_, ?_⟩
  · exact (C6_deallocate_zeroing ⟨List.replicate 512 1, 1, []⟩ ⟨0⟩ _
      (by decide) (by decide) (by decide) hd).1 5 (by decide) (by decide)
  · exact (C6_deallocate_zeroing ⟨List.replicate 512 1, 1, []⟩ ⟨0⟩ _
      (by decide) (by decide) (by decide) hd).2

/-- C7: handles with index at least total_blocks: reads return nothing and
deallocate is a silent no-op that never reaches the double-free check. -/
theorem C7_out_of_range (s : Slab) (h : Handle)
    (hge : h.index ≥ s.total_blocks) :
    s.get_value h = none ∧ s.get_meta h = none ∧ s.deallocate h = some s :=
  ⟨by simp only [Slab.get_value]; rw [if_pos hge],
    by simp only [Slab.get_meta]; rw [if_pos hge],
    by simp only [Slab.deallocate]; rw [if_pos hge]⟩

/-- Witness for C7 at index 3 of a one-block slab. -/
theorem C7_out_of_range_witness :
    (3 : Nat) ≥ (Slab.new 512).total_blocks ∧
    (Slab.new 512).get_value ⟨3⟩ = none ∧
    (Slab.new 512).get_meta ⟨3⟩ = none ∧
    (Slab.new 512).deallocate ⟨3⟩ = some (Slab.new 512) :=
  ⟨by decide, (C7_out_of_range (Slab.new 512) ⟨3⟩ (by decide)).1,
    (C7_out_of_range (Slab.new 512) ⟨3⟩ (by decide)).2.1,
    (C7_out_of_range (Slab.new 512) ⟨3⟩ (by decide)).2.2⟩

/-- C3: in every reachable state the freelist has no duplicate index and,
together with the occupied indices, covers exactly the indices below
total_blocks; after N successful allocations on a fresh slab the freelist
holds total_blocks - N entries, and deallocating one allocated handle
brings it back to total_blocks - N + 1. -/
theorem C3_freelist_accounting :
    (∀ s : Slab, Reachable s →
      s.free_list.Nodup ∧
      (∀ i, (i ∈ s.free_list ∨ i ∈ s.occupied) ↔ i < s.total_blocks)) ∧
    (∀ capacity_bytes : Nat, ∀ ops : List (List Nat × List Nat × Nat),
      ∀ s' : Slab,
      runAllocs (Slab.new capacity_bytes) ops = some s' →
      s'.free_list.length = (Slab.new capacity_bytes).total_blocks - ops.length) ∧
    (∀ capacity_bytes : Nat, ∀ ops : List (List Nat × List Nat × Nat),
      ∀ s' : Slab, ∀ h : Handle, ∀ s'' : Slab,
      runAllocs (Slab.new capacity_bytes) ops = some s' →
      h.index < s'.total_blocks → h.index ∉ s'.free_list →
      s'.deallocate h = some s'' →
      s''.free_list.length =
        (Slab.new capacity_bytes).total_blocks - ops.length + 1) := by
  refine ⟨?_, ?_, ?_⟩
  · intro s hs
    obtain ⟨-, hnodup, hbound⟩ := hs.wf
    refine ⟨hnodup, ?_⟩
    intro i
    constructor
    · intro hi
      rcases hi with hi | hi
      · exact hbound i hi
      · rw [Slab.occupied, List.mem_filter, List.mem_range] at hi
        exact hi.1
    · intro hi
      by_cases hmem : i ∈ s.free_list
      · exact Or.inl hmem
      · refine Or.inr ?_
        rw [Slab.occupied, List.mem_filter, List.mem_range]
        exact ⟨hi, by simpa using hmem⟩
  · intro capacity_bytes ops s' hrun
    obtain ⟨hlen, -⟩ := runAllocs_length ops _ _ hrun
    have hfresh := length_free_list_new capacity_bytes
    omega
  · intro capacity_bytes ops s' h s'' hrun hlt hmem hd
    obtain ⟨hlen, htb⟩ := runAllocs_length ops _ _ hrun
    have hfresh := length_free_list_new capacity_bytes
    rcases deallocate_some_inv hd with ⟨hge, rfl⟩ | ⟨-, -, -, hfl, -⟩
    · omega
    · rw [hfl, List.length_append, List.length_singleton]
      omega

/-- Witness for C3: the fresh two-block slab is reachable, its freelist is
duplicate-free and covers index 0, and after zero allocations the freelist
length is total_blocks - 0. -/
theorem C3_freelist_accounting_witness :
    (Slab.new 1024).free_list.Nodup ∧
    (((0 : Nat) ∈ (Slab.new 1024).free_list ∨ (0 : Nat) ∈ (Slab.new 1024).occupied) ↔
      (0 : Nat) < (Slab.new 1024).total_blocks) ∧
    (Slab.new 1024).free_list.length =
      (Slab.new 1024).total_blocks - ([] : List (List Nat × List Nat × Nat)).length :=
  ⟨(C3_freelist_accounting.1 (Slab.new 1024) (Reachable.new 1024)).1,
    (C3_freelist_accounting.1 (Slab.new 1024) (Reachable.new 1024)).2 0,
    C3_freelist_accounting.2.1 1024 [] (Slab.new 1024) rfl⟩

/-- C8: an in-range handle whose block bytes are all zero decodes a zeroed
header and get_value returns an empty value slice rather than failing. -/
theorem C8_freed_block_reads_empty (s : Slab) (h : Handle)
    (hlt : h.index < s.total_blocks)
    (hzero : ∀ j, j < 512 → s.region[h.index * 512 + j]? = some 0) :
    s.get_value h = some [] := by
  simp only [Slab.get_value, KEY_LEN_OFFSET, VAL_LEN_OFFSET, HEADER_SIZE,
    BLOCK_SIZE, TTL_OFFSET, TTL_SIZE, Nat.reduceAdd]
  rw [if_neg (by omega)]
  rw [readBytes_readBytes _ _ _ _ _ (by omega),
    readBytes_readBytes _ _ _ _ _ (by omega)]
  have hkl : readBytes s.region (h.index * 512 + 8) 2 = [0, 0] :=
    readBytes_two_zero s.region _ (hzero 8 (by omega))
      (by rw [show h.index * 512 + 8 + 1 = h.index * 512 + 9 from by omega]
          exact hzero 9 (by omega))
  have hvl : readBytes s.region (h.index * 512 + 10) 2 = [0, 0] :=
    readBytes_two_zero s.region _ (hzero 10 (by omega))
      (by rw [show h.index * 512 + 10 + 1 = h.index * 512 + 11 from by omega]
          exact hzero 11 (by omega))
  rw [hkl, hvl]
  simp [fromLEBytes, readBytes]

/-- Witness for C8: on a fresh one-block slab, block 0 is zeroed and
get_value returns the empty slice. -/
theorem C8_freed_block_reads_empty_witness :
    (0 : Nat) < (Slab.new 512).total_blocks ∧
    (∀ j, j < 512 → (Slab.new 512).region[(0 : Nat) * 512 + j]? = some 0) ∧
    (Slab.new 512).get_value ⟨0⟩ = some [] :=
  ⟨by decide,
    by
      intro j hj
      show (List.replicate (512 / 512 * 512) 0)[0 * 512 + j]? = some 0
      exact List.getElem?_replicate_of_lt (by omega),
    C8_freed_block_reads_empty (Slab.new 512) ⟨0⟩ (by decide)
      (by
        intro j hj
        show (List.replicate (512 / 512 * 512) 0)[0 * 512 + j]? = some 0
        exact List.getElem?_replicate_of_lt (by omega))⟩

/-- C9: new(capacity_bytes) yields total_blocks = capacity_bytes / 512, a
zero-filled region of total_blocks * 512 bytes, and a freelist of all
indices in descending order, so the first allocation returns block 0. -/
theorem C9_construction (capacity_bytes : Nat) :
    (Slab.new capacity_bytes).total_blocks = capacity_bytes / 512 ∧
    (Slab.new capacity_bytes).region =
      List.replicate ((capacity_bytes / 512) * 512) 0 ∧
    (Slab.new capacity_bytes).free_list =
      (List.range (capacity_bytes / 512)).reverse ∧
    (∀ key value : List Nat, ∀ ttl : Nat,
      0 < capacity_bytes / 512 →
      key.length ≤ 65535 → value.length ≤ 65535 →
      12 + key.length + value.length ≤ 512 →
      ((Slab.new capacity_bytes).allocate key value ttl).1 = some ⟨0⟩) := by
  refine ⟨rfl, rfl, ?_, ?_⟩
  · show init_freelist (capacity_bytes / 512) = (List.range (capacity_bytes / 512)).reverse
    exact init_freelist_eq _
  · intro key value ttl hpos hk hv hfit
    have hlast : (Slab.new capacity_bytes).free_list.getLast? = some 0 := by
      show (init_freelist (capacity_bytes / 512)).getLast? = some 0
      rw [getLast?_init_freelist, if_neg (by omega)]
    rw [allocate_success _ _ _ _ 0 hk hv hfit hlast]

/-- Witness for C9 at capacity 1024 with a concrete first allocation. -/
theorem C9_construction_witness :
    (Slab.new 1024).total_blocks = 1024 / 512 ∧
    (Slab.new 1024).region = List.replicate ((1024 / 512) * 512) 0 ∧
    (Slab.new 1024).free_list = (List.range (1024 / 512)).reverse ∧
    ((Slab.new 1024).allocate [9] [8] 7).1 = some ⟨0⟩ :=
  ⟨(C9_construction 1024).1, (C9_construction 1024).2.1,
    (C9_construction 1024).2.2.1,
    (C9_construction 1024).2.2.2 [9] [8] 7 (by decide) (by decide) (by decide)
      (by decide)⟩

/-- C10: a successful allocate or deallocate touches only the bytes of the
handle's own block; total_blocks and every byte outside that block are
unchanged. -/
theorem C10_frame (s : Slab) (key value : List Nat) (ttl : Nat)
    (h : Handle) (s' : Slab) :
    (s.allocate key value ttl = (some h, s') →
      s'.total_blocks = s.total_blocks ∧
      ∀ j, j < h.index * 512 ∨ (h.index + 1) * 512 ≤ j →
        s'.region[j]? = s.region[j]?) ∧
    (h.index < s.total_blocks → h.index ∉ s.free_list →
      s.deallocate h = some s' →
      s'.total_blocks = s.total_blocks ∧
      ∀ j, j < h.index * 512 ∨ (h.index + 1) * 512 ≤ j →
        s'.region[j]? = s.region[j]?) := by
  constructor
  · intro ha
    obtain ⟨hk, hv, hfit, hlast, htb, -, -⟩ := allocate_some_inv ha
    refine ⟨htb, ?_⟩
    intro j hj
    have hreg' : s'.region = writeBytes (writeBytes (writeBytes (writeBytes (writeBytes
        s.region (h.index * 512) (toLEBytes 8 ttl))
        (h.index * 512 + 8) (toLEBytes 2 key.length))
        (h.index * 512 + 10) (toLEBytes 2 value.length))
        (h.index * 512 + 12) key)
        (h.index * 512 + 12 + key.length) value := by
      rw [allocate_success s key value ttl h.index hk hv hfit hlast] at ha
      rw [← (Prod.mk.injEq _ _ _ _ |>.mp ha).2]
    rw [hreg']
    rcases hj with hj | hj
    · rw [writeBytes_getElem?_lt _ _ _ _ (by omega),
        writeBytes_getElem?_lt _ _ _ _ (by omega),
        writeBytes_getElem?_lt _ _ _ _ (by omega),
        writeBytes_getElem?_lt _ _ _ _ (by omega),
        writeBytes_getElem?_lt _ _ _ _ (by omega)]
    · rw [writeBytes_getElem?_ge _ _ _ _ (by omega),
        writeBytes_getElem?_ge _ _ _ _ (by omega),
        writeBytes_getElem?_ge _ _ _ _
          (by rw [length_toLEBytes]; omega),
        writeBytes_getElem?_ge _ _ _ _
          (by rw [length_toLEBytes]; omega),
        writeBytes_getElem?_ge _ _ _ _
          (by rw [length_toLEBytes]; omega)]
  · intro hlt hmem hd
    simp only [Slab.deallocate] at hd
    rw [if_neg (by omega), if_neg hmem] at hd
    have htb : s'.total_blocks = s.total_blocks := by
      rw [← Option.some.inj hd]
    have hreg' : s'.region =
        writeBytes s.region (h.index * BLOCK_SIZE) (List.replicate BLOCK_SIZE 0) := by
      rw [← Option.some.inj hd]
    refine ⟨htb, ?_⟩
    intro j hj
    rw [hreg']
    simp only [BLOCK_SIZE]
    rcases hj with hj | hj
    · rw [writeBytes_getElem?_lt _ _ _ _ (by omega)]
    · rw [writeBytes_getElem?_ge _ _ _ _
        (by rw [List.length_replicate]; omega)]

/-- Witness for C10: allocating the empty record on a fresh one-block slab
leaves total_blocks and out-of-block bytes unchanged. -/
theorem C10_frame_witness :
    (Slab.new 512).allocate [] [] 0 =
      (some ⟨0⟩, (⟨List.replicate 512 0, 1, []⟩ : Slab)) ∧
    (⟨List.replicate 512 0, 1, []⟩ : Slab).total_blocks = (Slab.new 512).total_blocks ∧
    (⟨List.replicate 512 0, 1, []⟩ : Slab).region[600]? = (Slab.new 512).region[600]? :=
  ⟨by decide,
    ((C10_frame (Slab.new 512) [] [] 0 ⟨0⟩ ⟨List.replicate 512 0, 1, []⟩).1
      (by decide)).1,
    ((C10_frame (Slab.new 512) [] [] 0 ⟨0⟩ ⟨List.replicate 512 0, 1, []⟩).1
      (by decide)).2 600 (Or.inr (by decide))⟩

end Cortex
